import Mathlib

/-!
Verification of the soil-metal record unification script
(`combine_soil_metals.py`) against its natural-language specification.

The script is embedded shallowly:

* column labels are `String`s, treated as their lists of characters where
  character-level matching is needed;
* a pandas `DataFrame` is a `Table`: a list of column labels together with
  rows of optional cell values (`none` models a missing value / `NaN`);
* the regular-expression tests used by `find_col` are embedded as executable
  character-list predicates whose meaning matches the patterns built in the
  script (`^\s*k\s*$`, `k[\s,].*$` under `re.search`, and `\b k \b`), all
  case-insensitively;
* the linear script body is a pure function; the try/except around the
  Vladimir load and the unguarded global load are modelled with `Except`.
-/

namespace CombineSoilMetals

/-- Case fold used to model Python `str.lower()` / `re.IGNORECASE` on the
character sets that occur in this script: ASCII letters and the Cyrillic
letters appearing in the synonym lists. -/
def lowerCh (c : Char) : Char :=
  if 0x410 ≤ c.toNat ∧ c.toNat ≤ 0x42F then Char.ofNat (c.toNat + 0x20)
  else if c.toNat = 0x401 then Char.ofNat 0x451
  else c.toLower

/-- A string, lowercased, as its list of characters. -/
def lowerList (s : String) : List Char := s.data.map lowerCh

/-- Python regex `\s` on the characters occurring here. -/
def isSpaceChar (c : Char) : Bool :=
  c = ' ' || c = '\t' || c = '\n' || c = '\r' || c.toNat = 11 || c.toNat = 12

/-- Python regex `\w` (word character) on the characters occurring here:
alphanumerics, the underscore, and Cyrillic letters. -/
def isWordChar (c : Char) : Bool :=
  c.isAlphanum || c = '_' ||
  (0x410 ≤ c.toNat && c.toNat ≤ 0x44F) || c.toNat = 0x401 || c.toNat = 0x451

/-- Strip leading and trailing whitespace (Python `str.strip()` /
the `\s*` padding admitted by the exact-match pattern). -/
def trimChars (s : List Char) : List Char :=
  ((s.dropWhile isSpaceChar).reverse.dropWhile isSpaceChar).reverse

/-- `occursIn needle hay` holds when `needle` occurs as a contiguous
substring of `hay` (Python `needle in hay`). -/
def occursIn (needle : List Char) : List Char → Bool
  | [] => needle.isEmpty
  | c :: rest => needle.isPrefixOf (c :: rest) || occursIn needle rest

/-! ## Label Normalizer (`make_unique_labels`, script lines 16-31)

The script keeps a dictionary `seen` mapping each original label to the
number of its occurrences processed so far; that count is exactly
`prev.count item` where `prev` is the list of original labels already
processed, which is how the dictionary is rendered here. -/

/-- One step of the loop in `make_unique_labels`: `prev` is the list of
original labels already processed (so `prev.count item` is the value
`seen.get(item, 0)` the script reads). -/
def makeUniqueLabelsGo (prev : List String) : List String → List String
  | [] => []
  | item :: rest =>
    let count := prev.count item
    let item2 := if count > 0 then item ++ "_" ++ toString count else item
    item2 :: makeUniqueLabelsGo (prev ++ [item]) rest

/-- The script's `make_unique_labels`: first occurrence of a label is kept,
the n-th repeat is suffixed with an underscore and the count of prior
occurrences. -/
def make_unique_labels (labels : List String) : List String :=
  makeUniqueLabelsGo [] labels

/-! ## Junk-column stripping for the Vladimir source (script lines 52-67) -/

/-- The apostrophe character, used inside the known stray GPS label. -/
def apos : String := String.mk [Char.ofNat 39]

/-- The literal GPS coordinate string listed at script line 58. -/
def gpsStrayLabel : String :=
  "56°25" ++ apos ++ "02\" N 40°25" ++ apos ++ "25\" E"

/-- Lowercase a whole string (Python `str(col).lower()`). -/
def toLowerString (s : String) : String := String.mk (lowerList s)

/-- Membership test of the drop list built at script lines 53-59: lowercased
label equals a known placeholder, or the label starts with a junk-sentinel
prefix, or it is one of the known stray columns. -/
def isJunkColumn (c : String) : Bool :=
  ["nan", "unnamed: 10", "unnamed: 22", "unnamed: 1"].contains (toLowerString c) ||
  ("nan_".data.isPrefixOf c.data) ||
  ("Unnamed:".data.isPrefixOf c.data) ||
  ["GPS coordinates of the experimental field", gpsStrayLabel].contains c

/-- `str.strip()` on a string. -/
def stripString (s : String) : String := String.mk (trimChars s.data)

/-- The label cleaning applied to the Vladimir table's columns at script
lines 52-67: drop junk columns, strip whitespace, make labels unique. -/
def vladLabelClean (labels : List String) : List String :=
  make_unique_labels ((labels.filter (fun c => !(isJunkColumn c))).map stripString)

/-- The treatment the script gives the global (Source B) table's column
labels at lines 85-92: the raw CSV header row is used directly — no junk
stripping, no deduplication, no renaming is ever applied to it. -/
def globalLabels (labels : List String) : List String := labels

/-! ## Vladimir-only post-processing (script lines 71-79) -/

/-- The test at script line 73: the lowercased label contains both
substrings `depth` and `cm`. -/
def hasDepthCm (c : String) : Bool :=
  occursIn "depth".data (lowerList c) && occursIn "cm".data (lowerList c)

/-- Script line 73: the first column whose label passes `hasDepthCm`. -/
def depthColumn (labels : List String) : Option String :=
  labels.find? hasDepthCm

/-- Script lines 74-75: rename the found depth column to `Depth`. -/
def renameDepth (labels : List String) : List String :=
  match depthColumn labels with
  | some d => labels.map (fun c => if c = d then "Depth" else c)
  | none => labels

/-- Script lines 78-79: drop the column labelled exactly `Sample`. -/
def dropSampleColumn (labels : List String) : List String :=
  labels.filter (fun c => !(c == "Sample"))

/-- The Vladimir-only label post-processing of script lines 71-79 (depth
rename, then Sample drop), applied after `vladLabelClean`. -/
def vladPostLabel (labels : List String) : List String :=
  dropSampleColumn (renameDepth labels)

/-! ## Column Resolver (`find_col`, script lines 95-117)

`find_col` builds, for each key `k`, the three patterns
`^\s*k\s*$`, `k[\s,].*$` and `\b k \b`, joins them with `|`, and keeps the
columns where `re.search` (with `re.IGNORECASE`) succeeds.  Each pattern is
embedded as an executable predicate on lowercased character lists. -/

/-- Pattern 1, `^\s*k\s*$`: the label equals the key after stripping
surrounding whitespace (both sides already lowercased; the keys the script
uses carry no surrounding whitespace of their own). -/
def exactMatch (k s : List Char) : Bool :=
  trimChars s == k

/-- The key occurs at the head of `s` immediately followed by a whitespace
character or a comma. -/
def delimAfter (k s : List Char) : Bool :=
  k.isPrefixOf s &&
  (match s.drop k.length with
   | d :: _ => isSpaceChar d || d = ','
   | [] => false)

/-- Pattern 2, `k[\s,].*$` under `re.search`: the key followed by a
whitespace character or comma occurs anywhere in the label (the pattern is
not anchored, so the occurrence need not be at the start). -/
def searchDelim (k : List Char) : List Char → Bool
  | [] => false
  | c :: rest => delimAfter k (c :: rest) || searchDelim k rest

/-- Word-character-ness of an optional character; `none` (the edge of the
string) counts as a non-word position, as for regex `\b`. -/
def isWordOpt : Option Char → Bool
  | some c => isWordChar c
  | none => false

/-- `\b k \b` matches exactly at the start of `s`, whose previous character
(if any) is `prev`: `k` is a prefix of `s` and both ends of the occurrence
are word boundaries. -/
def wbHere (k s : List Char) (prev : Option Char) : Bool :=
  k.isPrefixOf s &&
  (isWordOpt prev != isWordOpt s.head?) &&
  (isWordOpt (s.get? (k.length - 1)) != isWordOpt (s.get? k.length))

/-- Pattern 3, `\b k \b` under `re.search`: a word-boundary occurrence of
the key anywhere in the label. -/
def searchWB (k : List Char) : Option Char → List Char → Bool
  | prev, [] => wbHere k [] prev
  | prev, c :: rest => wbHere k (c :: rest) prev || searchWB k (some c) rest

/-- One combined pattern test per label (script line 110's `|`-join of the
three pattern families for one key): pattern 1, 2 or 3 succeeds. -/
def matchKey (k s : List Char) : Bool :=
  exactMatch k s || searchDelim k s || searchWB k none s

/-- `re.search(combined_pattern, str(c), re.IGNORECASE)` at script line 114:
some key's combined pattern matches the label. -/
def matchesAny (keys : List String) (c : String) : Bool :=
  keys.any (fun k => matchKey (lowerList k) (lowerList c))

/-- The script's `find_col` (lines 95-117): filter the column labels by the
combined pattern and return the first hit, or `none` when there is none. -/
def find_col (labels : List String) (keys : List String) : Option String :=
  (labels.filter (fun c => matchesAny keys c)).head?

/-! ## The Column Resolver's tiers as the specification words them

For comparing the implementation with the specification's description of
the three tiers (section 4.3 of the spec): tier 2 there is anchored at the
start of the label, and tier 3 bounds the token by non-alphanumeric
characters (so an underscore is a boundary, unlike regex `\b`). -/

/-- Spec tier 1: the label equals the token exactly, case-insensitively,
ignoring surrounding whitespace. -/
def specExactTier (k c : String) : Bool :=
  trimChars (lowerList c) == trimChars (lowerList k)

/-- Spec tier 2: the label begins with the token immediately followed by a
comma or whitespace. -/
def specPrefixTier (k c : String) : Bool :=
  delimAfter (lowerList k) (lowerList c)

/-- An occurrence of `k` at the head of `s` bounded by non-alphanumeric
characters (or the ends of the label) on both sides. -/
def boundedHere (k s : List Char) (prev : Option Char) : Bool :=
  k.isPrefixOf s &&
  !(match prev with | some c => c.isAlphanum | none => false) &&
  !(match s.get? k.length with | some c => c.isAlphanum | none => false)

/-- Helper scanning all start positions for `boundedHere`. -/
def searchBounded (k : List Char) : Option Char → List Char → Bool
  | prev, [] => boundedHere k [] prev
  | prev, c :: rest => boundedHere k (c :: rest) prev || searchBounded k (some c) rest

/-- Spec tier 3: the token appears anywhere in the label bounded by
non-alphanumeric boundaries, case-insensitively. -/
def specBoundedTier (k c : String) : Bool :=
  searchBounded (lowerList k) none (lowerList c)

/-! ## Tables

A pandas `DataFrame` is modelled positionally: a list of column labels and
rows of optional cell values aligned with the labels; `none` is `NaN`. -/

/-- A table: column labels plus rows of optional cell values, each row
aligned positionally with `cols`. -/
structure Table where
  cols : List String
  rows : List (List (Option String))
  deriving DecidableEq, Repr

/-- The value a row holds under a column label: position of the label in
`cols`, then that entry of the row (`none` when the label or entry is
absent). -/
def cellAt (cols : List String) (r : List (Option String)) (c : String) : Option String :=
  match cols.findIdx? (fun x => x == c) with
  | some i => (r.get? i).getD none
  | none => none

/-! ## Schema Mapper (script lines 123-172 and 182-191) -/

/-- The Vladimir candidate mapping of script lines 123-148: each canonical
field with the label `find_col` resolves for it over the given column
labels, in the fixed enumeration order of the script's dict literal. -/
def vlad_map (labels : List String) : List (String × Option String) :=
  [("Latitude", find_col labels ["lat", "широта", "latitude", "coord", "gps"]),
   ("Longitude", find_col labels ["lon", "долгота", "longitude", "coord", "gps"]),
   ("Treatment", find_col labels ["Control", "Background", "Experimental group", "treatment", "group", "Контроль"]),
   ("As", find_col labels ["As", "Arsenic"]),
   ("Cd", find_col labels ["Cd", "Cadmium"]),
   ("Co", find_col labels ["Co", "Cobalt"]),
   ("Cr", find_col labels ["Cr", "Chromium"]),
   ("Cu", find_col labels ["Cu", "Copper"]),
   ("Fe", find_col labels ["Fe", "Iron"]),
   ("K", find_col labels ["K", "Potassium", "Kalium"]),
   ("Mg", find_col labels ["Mg", "Magnesium"]),
   ("Ni", find_col labels ["Ni", "Nickel"]),
   ("Pb", find_col labels ["Pb", "Lead"]),
   ("Zn", find_col labels ["Zn", "Zinc"]),
   ("pH", find_col labels ["pH"]),
   ("Ca", find_col labels ["Ca", "Calcium"]),
   ("Mn", find_col labels ["Mn", "Manganese"]),
   ("Ba", find_col labels ["Ba", "Barium"]),
   ("Sr", find_col labels ["Sr", "Strontium"]),
   ("Na", find_col labels ["Na", "Sodium"]),
   ("P", find_col labels ["P", "Phosphorus"])]

/-- The global candidate mapping of script lines 151-172 (note: no
`Treatment` entry for this source). -/
def glob_map (labels : List String) : List (String × Option String) :=
  [("Latitude", find_col labels ["lat", "широта", "latitude"]),
   ("Longitude", find_col labels ["lon", "долгота", "longitude"]),
   ("As", find_col labels ["as", "arsenic"]),
   ("Cd", find_col labels ["cd", "cadmium"]),
   ("Co", find_col labels ["co", "cobalt"]),
   ("Cr", find_col labels ["cr", "chromium"]),
   ("Cu", find_col labels ["cu", "copper"]),
   ("Fe", find_col labels ["fe", "iron"]),
   ("K", find_col labels ["k", "pota", "kalium", "potassium"]),
   ("Mg", find_col labels ["mg", "magnesium"]),
   ("Ni", find_col labels ["ni", "nickel"]),
   ("Pb", find_col labels ["pb", "lead"]),
   ("Zn", find_col labels ["zn", "zinc"]),
   ("pH", find_col labels ["ph"]),
   ("Ca", find_col labels ["ca", "calcium"]),
   ("Mn", find_col labels ["mn", "manganese"]),
   ("Ba", find_col labels ["ba", "barium"]),
   ("Sr", find_col labels ["sr", "strontium"]),
   ("Na", find_col labels ["na", "sodium"]),
   ("P", find_col labels ["p", "phosphorus"])]

/-- The loop of script lines 182-186 (and 188-191): walk the candidate
mapping in order, keeping a field when its resolved label exists, lies in
the table's columns, and has not been claimed by an earlier kept field;
`acc` is the insertion-ordered dict built so far. -/
def rcGo (cols : List String) (acc : List (String × String)) :
    List (String × Option String) → List (String × String)
  | [] => acc
  | (_, none) :: rest => rcGo cols acc rest
  | (f, some old) :: rest =>
    if old ∈ cols ∧ ¬ old ∈ acc.map Prod.snd then rcGo cols (acc ++ [(f, old)]) rest
    else rcGo cols acc rest

/-- Collision resolution of script lines 182-191, producing the
`*_cols_used` mapping (canonical field, claimed column label). -/
def resolveCollisions (m : List (String × Option String)) (cols : List String) :
    List (String × String) :=
  rcGo cols [] m

/-- Script lines 194-195: select the claimed columns of a table, in the
order of the collision-free mapping, renaming each to its canonical field
name. -/
def selectRename (t : Table) (used : List (String × String)) : Table :=
  ⟨used.map Prod.fst, t.rows.map (fun r => used.map (fun p => cellAt t.cols r p.2))⟩

/-! ## Record Unifier (script lines 197-209) -/

/-- Script lines 197-198: append the source-identifier column, tagging
every row. -/
def addSourceCol (t : Table) (tag : String) : Table :=
  ⟨t.cols ++ ["source"], t.rows.map (fun r => r ++ [some tag])⟩

/-- Lexicographic comparison of character lists by code point — the order
Python's `sorted` uses on strings. -/
def charListLe : List Char → List Char → Bool
  | [], _ => true
  | _ :: _, [] => false
  | a :: as, b :: bs => if a = b then charListLe as bs else decide (a < b)

/-- Python's `<=` on strings, by code point. -/
def strLe (a b : String) : Bool := charListLe a.data b.data

/-- `strLe` as a relation, the comparison `sorted` at script line 201 sorts
by. -/
def strLeRel (a b : String) : Prop := strLe a b = true

instance : DecidableRel strLeRel := fun a b => instDecidableEqBool (strLe a b) true

/-- `reindex(columns=newCols)` on one row: the value under each new column
label, `none` for labels the table does not have. -/
def reindexRow (oldCols : List String) (r : List (Option String)) (newCols : List String) :
    List (Option String) :=
  newCols.map (fun c =>
    match oldCols.findIdx? (fun x => x == c) with
    | some i => (r.get? i).getD none
    | none => none)

/-- `t.reindex(columns=newCols)` (script lines 202-203). -/
def reindexTable (t : Table) (newCols : List String) : Table :=
  ⟨newCols, t.rows.map (fun r => reindexRow t.cols r newCols)⟩

/-- Script lines 200-205: `sorted(set(vlad.columns) | set(global_df.columns))`
(rendered as an insertion sort of the deduplicated concatenation), reindex
both tables onto that union, and concatenate the rows, Vladimir's first. -/
def combineCore (vlad gdf : Table) : Table :=
  let all_cols := List.insertionSort strLeRel ((vlad.cols ++ gdf.cols).dedup)
  ⟨all_cols, (reindexTable vlad all_cols).rows ++ (reindexTable gdf all_cols).rows⟩

/-- Script line 120's element list — note that it includes `Latitude` and
`Longitude`. -/
def ALL_ELEMENTS : List String :=
  ["Latitude", "Longitude", "As", "Cd", "Co", "Cr", "Cu", "Fe", "K", "Mg",
   "Ni", "Pb", "Zn", "pH", "Ca", "Mn", "Ba", "Sr", "Na", "P"]

/-- `ALL_ELEMENTS` after script line 175 appends `Treatment`. -/
def allElementsWithTreatment : List String := ALL_ELEMENTS ++ ["Treatment"]

/-- Script line 208: the columns checked by the row-drop step — every entry
of the (Treatment-extended) element list that is a combined-table column,
except `Treatment` itself. -/
def element_cols (combinedCols : List String) : List String :=
  allElementsWithTreatment.filter (fun c => combinedCols.contains c && !(c == "Treatment"))

/-- Script line 209, `dropna(subset=element_cols, how='all')`: keep a row
exactly when at least one checked column holds a value. -/
def dropAllMissing (t : Table) : Table :=
  let subset := element_cols t.cols
  ⟨t.cols, t.rows.filter (fun r => subset.any (fun c => (cellAt t.cols r c).isSome))⟩

/-! ## The whole pipeline after loading (script lines 120-209) -/

/-- The script body from the candidate mappings to the final combined
table: schema-map both loaded tables, rename, tag, align, concatenate and
drop empty-measurement rows. -/
def process (vlad_soil global_soil : Table) : Table :=
  let vu := resolveCollisions (vlad_map vlad_soil.cols) vlad_soil.cols
  let gu := resolveCollisions (glob_map global_soil.cols) global_soil.cols
  let vlad := addSourceCol (selectRename vlad_soil vu) "vladimir"
  let gdf := addSourceCol (selectRename global_soil gu) "global"
  dropAllMissing (combineCore vlad gdf)

/-! ## Error handling (script lines 34-89, 215)

The Vladimir load-and-clean block sits in a try/except that prints a fatal
message naming the source and re-raises; the global load at lines 85-89 is
unguarded, so a failure there propagates as the bare underlying error.  The
output file is written only after everything else (line 215), so an error
outcome carries no output table. -/

/-- The message printed at script line 82 before the exception is
re-raised. -/
def vladFatalMessage (e : String) : String :=
  "FATAL ERROR: Failed to load and clean Vladimir file. Error: " ++ e

/-- The run as a function of the two load outcomes: a Vladimir failure is
surfaced wrapped in `vladFatalMessage`; a global failure propagates
untouched; only when both loads succeed is the combined table produced. -/
def runPipeline (vladLoad globalLoad : Except String Table) : Except String Table :=
  match vladLoad with
  | .error e => .error (vladFatalMessage e)
  | .ok vlad_soil =>
    match globalLoad with
    | .error e => .error e
    | .ok global_soil => .ok (process vlad_soil global_soil)

/-! ## Supporting lemmas -/

/-- The head of a filtered list is the first element satisfying the
predicate: everything before it in the original list fails the test. -/
theorem filter_head_first {α : Type} (p : α → Bool) :
    ∀ (l : List α) (a : α), (l.filter p).head? = some a →
      ∃ pre post, l = pre ++ a :: post ∧ (∀ x, x ∈ pre → p x = false) ∧ p a = true := by
  intro l
  induction l with
  | nil => intro a h; simp at h
  | cons c rest ih =>
    intro a h
    rw [List.filter_cons] at h
    by_cases hc : p c
    · rw [if_pos hc] at h
      simp only [List.head?_cons, Option.some.injEq] at h
      subst h
      exact ⟨[], rest, rfl, by intro x hx; simp at hx, hc⟩
    · rw [if_neg hc] at h
      obtain ⟨pre, post, heq, hpre, hpa⟩ := ih a h
      refine ⟨c :: pre, post, by rw [heq]; rfl, ?_, hpa⟩
      intro x hx
      rcases List.mem_cons.mp hx with h1 | h2
      · subst h1; exact Bool.eq_false_iff.mpr hc
      · exact hpre x h2

/-- The filtered list has no head exactly when no element satisfies the
predicate. -/
theorem filter_head_none {α : Type} (p : α → Bool) (l : List α) :
    (l.filter p).head? = none ↔ ∀ x, x ∈ l → p x = false := by
  rw [List.head?_eq_none_iff, List.filter_eq_nil_iff]
  simp

/-- `find?` returns the first element satisfying the predicate. -/
theorem find?_first {α : Type} (p : α → Bool) :
    ∀ (l : List α) (a : α), l.find? p = some a →
      p a = true ∧ ∃ pre post, l = pre ++ a :: post ∧ ∀ x, x ∈ pre → p x = false := by
  intro l
  induction l with
  | nil => intro a h; simp at h
  | cons c rest ih =>
    intro a h
    by_cases hc : p c
    · rw [List.find?_cons_of_pos _ hc] at h
      simp only [Option.some.injEq] at h
      subst h
      exact ⟨hc, [], rest, rfl, by intro x hx; simp at hx⟩
    · rw [List.find?_cons_of_neg _ (by simp [hc])] at h
      obtain ⟨hpa, pre, post, heq, hpre⟩ := ih a h
      refine ⟨hpa, c :: pre, post, by rw [heq]; rfl, ?_⟩
      intro x hx
      rcases List.mem_cons.mp hx with h1 | h2
      · subst h1; exact Bool.eq_false_iff.mpr hc
      · exact hpre x h2

/-- The empty string occurs in every string. -/
theorem occursIn_nil_left : ∀ l : List Char, occursIn [] l = true
  | [] => rfl
  | _ :: _ => by simp [occursIn, List.isPrefixOf]

/-- An occurrence in a string survives appending more text to its right. -/
theorem occursIn_append_left (n : List Char) :
    ∀ h t : List Char, occursIn n h = true → occursIn n (h ++ t) = true := by
  intro h
  induction h with
  | nil =>
    intro t hh
    have hn : n = [] := by
      cases n with
      | nil => rfl
      | cons c cs => simp [occursIn] at hh
    subst hn
    exact occursIn_nil_left t
  | cons c rest ih =>
    intro t hh
    simp only [occursIn, Bool.or_eq_true] at hh
    rcases hh with hp | ho
    · have hpre : n <+: c :: rest := List.isPrefixOf_iff_prefix.mp hp
      have : n <+: (c :: rest) ++ t := hpre.trans (List.prefix_append _ t)
      simp only [List.cons_append, occursIn, Bool.or_eq_true]
      exact Or.inl (List.isPrefixOf_iff_prefix.mpr (by simpa using this))
    · simp only [List.cons_append, occursIn, Bool.or_eq_true]
      exact Or.inr (ih t ho)

/-- `charListLe` is total. -/
theorem charListLe_total : ∀ x y : List Char, charListLe x y = true ∨ charListLe y x = true := by
  intro x
  induction x with
  | nil => intro y; left; rfl
  | cons a as ih =>
    intro y
    cases y with
    | nil => right; rfl
    | cons b bs =>
      by_cases hab : a = b
      · subst hab
        rcases ih bs with h | h
        · left; simpa [charListLe] using h
        · right; simpa [charListLe] using h
      · rcases lt_or_gt_of_ne hab with hlt | hgt
        · left; simp [charListLe, hab, hlt]
        · right; simp [charListLe, Ne.symm hab, hgt]

/-- `charListLe` is transitive. -/
theorem charListLe_trans :
    ∀ x y z : List Char, charListLe x y = true → charListLe y z = true → charListLe x z = true := by
  intro x
  induction x with
  | nil => intro y z _ _; rfl
  | cons a as ih =>
    intro y z h1 h2
    cases y with
    | nil => simp [charListLe] at h1
    | cons b bs =>
      cases z with
      | nil => simp [charListLe] at h2
      | cons c cs =>
        by_cases hab : a = b
        · subst hab
          by_cases hac : a = c
          · subst hac
            simp only [charListLe, if_pos rfl] at h1 h2 ⊢
            exact ih bs cs h1 h2
          · simpa [charListLe, hac] using h2
        · have hab' : a < b := by simpa [charListLe, hab] using h1
          by_cases hbc : b = c
          · subst hbc
            simp [charListLe, hab, hab']
          · have hbc' : b < c := by simpa [charListLe, hbc] using h2
            have hac : a < c := lt_trans hab' hbc'
            simp [charListLe, ne_of_lt hac, hac]

/-- The labels claimed by `rcGo` stay duplicate-free. -/
theorem rcGo_snd_nodup (cols : List String) :
    ∀ (m : List (String × Option String)) (acc : List (String × String)),
      (acc.map Prod.snd).Nodup → ((rcGo cols acc m).map Prod.snd).Nodup := by
  intro m
  induction m with
  | nil => intro acc h; exact h
  | cons p rest ih =>
    intro acc h
    obtain ⟨f, o⟩ := p
    cases o with
    | none => exact ih acc h
    | some old =>
      by_cases hcond : old ∈ cols ∧ ¬ old ∈ acc.map Prod.snd
      · simp only [rcGo]
        rw [if_pos hcond]
        apply ih
        rw [List.map_append]
        simp [List.nodup_append, h, hcond.2]
      · simp only [rcGo]
        rw [if_neg hcond]
        exact ih acc h

/-- `rcGo` never discards what the accumulator already holds. -/
theorem rcGo_mem_acc (cols : List String) :
    ∀ (m : List (String × Option String)) (acc : List (String × String)) (x : String × String),
      x ∈ acc → x ∈ rcGo cols acc m := by
  intro m
  induction m with
  | nil => intro acc x hx; exact hx
  | cons p rest ih =>
    intro acc x hx
    obtain ⟨f, o⟩ := p
    cases o with
    | none => exact ih acc x hx
    | some old =>
      by_cases hcond : old ∈ cols ∧ ¬ old ∈ acc.map Prod.snd
      · simp only [rcGo]
        rw [if_pos hcond]
        exact ih _ x (List.mem_append_left _ hx)
      · simp only [rcGo]
        rw [if_neg hcond]
        exact ih acc x hx

/-- Anything `rcGo` outputs was in the accumulator or names a field of the
remaining candidate mapping. -/
theorem rcGo_mem_src (cols : List String) :
    ∀ (m : List (String × Option String)) (acc : List (String × String)) (x : String × String),
      x ∈ rcGo cols acc m → x ∈ acc ∨ x.1 ∈ m.map Prod.fst := by
  intro m
  induction m with
  | nil => intro acc x hx; exact Or.inl hx
  | cons p rest ih =>
    intro acc x hx
    obtain ⟨f, o⟩ := p
    cases o with
    | none =>
      rcases ih acc x hx with h | h
      · exact Or.inl h
      · exact Or.inr (by simp [h])
    | some old =>
      by_cases hcond : old ∈ cols ∧ ¬ old ∈ acc.map Prod.snd
      · simp only [rcGo] at hx
        rw [if_pos hcond] at hx
        rcases ih _ x hx with h | h
        · rcases List.mem_append.mp h with h1 | h1
          · exact Or.inl h1
          · simp only [List.mem_singleton] at h1
            subst h1
            exact Or.inr (by simp)
        · exact Or.inr (by simp [h])
      · simp only [rcGo] at hx
        rw [if_neg hcond] at hx
        rcases ih acc x hx with h | h
        · exact Or.inl h
        · exact Or.inr (by simp [h])

/-! ## The claims -/

/-- C1 (counterexample): the claim says a combined-table row with only
Latitude and Longitude populated and every element field missing is
dropped.  It is not: `Latitude` and `Longitude` sit in `ALL_ELEMENTS`, so
the row-drop check at script lines 207-209 counts them as element fields
and retains such a row. -/
theorem C1_claim_cex :
    (dropAllMissing ⟨["As", "Latitude", "Longitude", "source"],
        [[none, some "55.1", some "40.4", some "vladimir"]]⟩).rows =
      [[none, some "55.1", some "40.4", some "vladimir"]] ∧
    "Latitude" ∈ element_cols ["As", "Latitude", "Longitude", "source"] ∧
    "Longitude" ∈ element_cols ["As", "Latitude", "Longitude", "source"] :=
  ⟨by decide, by decide, by decide⟩

/-- C1 (amended): a combined-table row is dropped exactly when every
checked column is missing, where the checked columns are the entries of
the script's element list (which includes Latitude and Longitude) that
occur among the combined columns, minus Treatment; only Treatment and
columns outside that list (such as the source identifier) are excluded
from the check.  A row with only Latitude/Longitude populated is therefore
retained, as is a row with only As populated. -/
theorem C1_rowdrop_amended :
    (∀ (t : Table) (r : List (Option String)),
       r ∈ (dropAllMissing t).rows ↔
         r ∈ t.rows ∧ ∃ c, c ∈ element_cols t.cols ∧ (cellAt t.cols r c).isSome = true) ∧
    (∀ (cols : List String) (c : String),
       c ∈ element_cols cols ↔ c ∈ allElementsWithTreatment ∧ c ∈ cols ∧ c ≠ "Treatment") ∧
    (¬ "source" ∈ element_cols ["As", "Latitude", "Longitude", "source"] ∧
     ¬ "Treatment" ∈ element_cols ["Treatment", "As"]) ∧
    (dropAllMissing ⟨["As", "Latitude", "Longitude", "source"],
        [[some "12.3", none, none, some "global"],
         [none, none, none, some "global"]]⟩).rows =
      [[some "12.3", none, none, some "global"]] := by
  refine ⟨?_, ?_, ⟨by decide, by decide⟩, by decide⟩
  · intro t r
    simp [dropAllMissing, List.mem_filter, List.any_eq_true]
  · intro cols c
    simp [element_cols, List.mem_filter, and_assoc]

/-- C2 (counterexample): the claim says Source B's raw header labels go
through the same junk-column stripping and deduplication as Source A's.
They do not: the script uses the CSV header directly, so on a header with
a junk sentinel and a duplicate the two treatments disagree. -/
theorem C2_claim_cex :
    globalLabels ["nan", "As", "As"] = ["nan", "As", "As"] ∧
    vladLabelClean ["nan", "As", "As"] = ["As", "As_1"] ∧
    ¬ globalLabels ["nan", "As", "As"] = vladLabelClean ["nan", "As", "As"] :=
  ⟨rfl, by decide, by decide⟩

/-- C2 (amended): Source B's column labels are the raw header row used
as-is; neither the junk-column stripping nor the Label Normalizer
deduplication of the Vladimir path (which is not a no-op) is applied to
them before schema mapping. -/
theorem C2_sourceB_amended :
    (∀ labels : List String, globalLabels labels = labels) ∧
    ¬ vladLabelClean ["nan", "As", "As"] = ["nan", "As", "As"] :=
  ⟨fun _ => rfl, by decide⟩

/-- C3 (code bug): `make_unique_labels` exists to make the column labels
unique, and the claim (with the script's own comments) says its output has
no duplicate values; but on the input `A, A, A_1` the second `A` is
renamed to `A_1`, colliding with the original third label, so the output
contains a duplicate. -/
theorem C3_make_unique_bug :
    make_unique_labels ["A", "A", "A_1"] = ["A", "A_1", "A_1"] ∧
    ¬ (make_unique_labels ["A", "A", "A_1"]).Nodup := by
  exact ⟨by decide, by decide⟩

/-- C4 (counterexample): the claim says a label is selected only if it
satisfies one of the spec's three tiers.  The label `XAs y` satisfies none
of them for token `As` (it is not an exact match, does not begin with
`As`, and the occurrence of `As` is preceded by the alphanumeric `X`), yet
`find_col` selects it, because the script's second pattern `As[\s,].*$` is
used with `re.search` and so matches anywhere in the label, not only at
its start. -/
theorem C4_claim_cex :
    find_col ["XAs y"] ["As"] = some "XAs y" ∧
    specExactTier "As" "XAs y" = false ∧
    specPrefixTier "As" "XAs y" = false ∧
    specBoundedTier "As" "XAs y" = false := by decide

/-- C4 (amended): a label is selected only if, for some candidate token,
it equals the token exactly (case-insensitively, ignoring surrounding
whitespace), or it contains the token immediately followed by a comma or
whitespace anywhere in the label (not necessarily at its start), or it
contains the token bounded by non-word-character boundaries (where the
underscore counts as a word character); a label satisfying none of these
is never returned. -/
theorem C4_resolver_amended :
    (∀ (labels keys : List String) (l : String),
       find_col labels keys = some l → l ∈ labels ∧ matchesAny keys l = true) ∧
    (∀ (keys : List String) (l : String),
       matchesAny keys l = true ↔
         ∃ k, k ∈ keys ∧
           (exactMatch (lowerList k) (lowerList l) = true ∨
            searchDelim (lowerList k) (lowerList l) = true ∨
            searchWB (lowerList k) none (lowerList l) = true)) := by
  constructor
  · intro labels keys l h
    obtain ⟨pre, post, heq, _, hp⟩ := filter_head_first _ labels l h
    refine ⟨?_, hp⟩
    rw [heq]
    exact List.mem_append_right pre (List.mem_cons_self l post)
  · intro keys l
    simp [matchesAny, matchKey, List.any_eq_true, Bool.or_eq_true, or_assoc]

/-- C4 witness: the amended theorem applied to a concrete resolved
label. -/
theorem C4_resolver_amended_witness :
    "K" ∈ (["K"] : List String) ∧ matchesAny ["K"] "K" = true :=
  C4_resolver_amended.1 ["K"] ["K"] "K" (by decide)

/-- C5: `find_col` returns the first label, in table column order, whose
combined pattern test succeeds for some candidate token, and returns
`none` — not an error — exactly when no label matches; on the labels
`As, mg/kg`, `Arsenic_total`, `K` with tokens `As`, `Arsenic` the result
is `As, mg/kg`. -/
theorem C5_first_match :
    (∀ (labels keys : List String) (l : String),
       find_col labels keys = some l →
         ∃ pre post, labels = pre ++ l :: post ∧
           (∀ x, x ∈ pre → matchesAny keys x = false) ∧ matchesAny keys l = true) ∧
    (∀ labels keys : List String,
       find_col labels keys = none ↔ ∀ x, x ∈ labels → matchesAny keys x = false) ∧
    find_col ["As, mg/kg", "Arsenic_total", "K"] ["As", "Arsenic"] = some "As, mg/kg" := by
  refine ⟨?_, ?_, by decide⟩
  · intro labels keys l h
    exact filter_head_first _ labels l h
  · intro labels keys
    exact filter_head_none _ labels

/-- C5 witness: the first-match theorem applied to the concrete example
of the claim. -/
theorem C5_first_match_witness :
    matchesAny ["As", "Arsenic"] "As, mg/kg" = true := by
  obtain ⟨pre, post, _, _, hm⟩ :=
    C5_first_match.1 ["As, mg/kg", "Arsenic_total", "K"] ["As", "Arsenic"] "As, mg/kg" (by decide)
  exact hm

/-- C6: with candidate token `P` the resolver does not match the labels
`Sample` or `Ppm_notes`, but matches `P, mg/kg` and the exact label `P`;
accordingly `find_col` skips the former and selects the latter. -/
theorem C6_boundary_safety :
    matchesAny ["P"] "Sample" = false ∧
    matchesAny ["P"] "Ppm_notes" = false ∧
    matchesAny ["P"] "P, mg/kg" = true ∧
    matchesAny ["P"] "P" = true ∧
    find_col ["Sample", "Ppm_notes", "P, mg/kg", "P"] ["P"] = some "P, mg/kg" ∧
    find_col ["Sample", "Ppm_notes", "P"] ["P"] = some "P" := by decide

/-- C7: collision resolution walks the candidate mapping in its fixed
enumeration order and keeps a field only when its resolved label is not
already claimed, so every final mapping uses each column label at most
once; when fields A and B (A first) resolve to the same valid label, the
result contains A paired with that label and omits B entirely. -/
theorem C7_collision_resolution :
    (∀ (m : List (String × Option String)) (cols : List String),
       ((resolveCollisions m cols).map Prod.snd).Nodup) ∧
    (∀ (A B l : String) (rest : List (String × Option String)) (cols : List String),
       A ≠ B → l ∈ cols → ¬ B ∈ rest.map Prod.fst →
         (A, l) ∈ resolveCollisions ((A, some l) :: (B, some l) :: rest) cols ∧
         ∀ x, ¬ (B, x) ∈ resolveCollisions ((A, some l) :: (B, some l) :: rest) cols) := by
  constructor
  · intro m cols
    exact rcGo_snd_nodup cols m [] (by simp)
  · intro A B l rest cols hAB hl hB
    have hstep : resolveCollisions ((A, some l) :: (B, some l) :: rest) cols =
        rcGo cols [(A, l)] rest := by
      simp only [resolveCollisions, rcGo]
      rw [if_pos ⟨hl, by simp⟩, if_neg]
      · rfl
      · intro hcon
        exact hcon.2 (by simp)
    rw [hstep]
    constructor
    · exact rcGo_mem_acc cols rest [(A, l)] (A, l) (by simp)
    · intro x hx
      rcases rcGo_mem_src cols rest [(A, l)] (B, x) hx with h | h
      · simp only [List.mem_singleton, Prod.mk.injEq] at h
        exact hAB h.1.symm
      · exact hB h

/-- C7 witness: the collision scenario at a concrete mapping. -/
theorem C7_collision_resolution_witness :
    ("As", "c1") ∈ resolveCollisions [("As", some "c1"), ("Cd", some "c1")] ["c1"] ∧
    ¬ ("Cd", "c1") ∈ resolveCollisions [("As", some "c1"), ("Cd", some "c1")] ["c1"] :=
  ⟨(C7_collision_resolution.2 "As" "Cd" "c1" [] ["c1"] (by decide) (by decide) (by simp)).1,
   (C7_collision_resolution.2 "As" "Cd" "c1" [] ["c1"] (by decide) (by decide) (by simp)).2 "c1"⟩

/-- C8: the Record Unifier reindexes both tagged source tables onto the
sorted union of their columns (the combined column list is sorted, and a
column occurs in it exactly when some source has it), concatenates their
row lists in source order, and on the claimed example yields the columns
As, Latitude, Longitude, source with the Vladimir row missing Longitude
and the global row missing Latitude. -/
theorem C8_union_alignment :
    (∀ v g : Table, List.Sorted strLeRel (combineCore v g).cols) ∧
    (∀ (v g : Table) (c : String),
       c ∈ (combineCore v g).cols ↔ c ∈ v.cols ∨ c ∈ g.cols) ∧
    (∀ v g : Table,
       (combineCore v g).rows =
         (reindexTable v (combineCore v g).cols).rows ++
           (reindexTable g (combineCore v g).cols).rows) ∧
    (∀ v g : Table, (combineCore v g).rows.length = v.rows.length + g.rows.length) ∧
    combineCore (addSourceCol ⟨["Latitude", "As"], [[some "55.0", some "1.2"]]⟩ "vladimir")
        (addSourceCol ⟨["Longitude", "As"], [[some "40.0", some "2.5"]]⟩ "global") =
      ⟨["As", "Latitude", "Longitude", "source"],
       [[some "1.2", some "55.0", none, some "vladimir"],
        [some "2.5", none, some "40.0", some "global"]]⟩ := by
  refine ⟨?_, ?_, fun v g => rfl, ?_, by decide⟩
  · intro v g
    haveI htot : IsTotal String strLeRel := ⟨fun a b => charListLe_total a.data b.data⟩
    haveI htr : IsTrans String strLeRel := ⟨fun a b c => charListLe_trans a.data b.data c.data⟩
    exact List.sorted_insertionSort strLeRel _
  · intro v g c
    simp only [combineCore, List.mem_insertionSort, List.mem_dedup, List.mem_append]
  · intro v g
    simp [combineCore, reindexTable]

/-- C9 (counterexample): the claim says every load failure surfaces an
error message naming the failing source.  A Source B (global CSV) load
failure propagates the bare underlying error: the surfaced message is the
cause alone, which need not mention the source at all. -/
theorem C9_claim_cex :
    runPipeline (.ok ⟨[], []⟩) (.error "boom") = .error "boom" ∧
    occursIn (lowerList "global") (lowerList "boom") = false ∧
    occursIn (lowerList "attachment") (lowerList "boom") = false :=
  ⟨rfl, by decide, by decide⟩

/-- C9 (amended): a Source A (Vladimir) load-and-clean failure aborts the
run with a message naming the Vladimir source and carrying the underlying
cause; a Source B (global) load failure aborts the run propagating the
underlying error unchanged, with no source-naming wrapper added; in both
cases no combined table is produced, and a table is produced only when
both loads succeed (no retry, no fallback). -/
theorem C9_error_policy_amended :
    (∀ (e : String) (g : Except String Table),
       runPipeline (.error e) g = .error (vladFatalMessage e)) ∧
    (∀ e : String, occursIn (lowerList "vladimir") (lowerList (vladFatalMessage e)) = true) ∧
    (∀ (t : Table) (e : String), runPipeline (.ok t) (.error e) = .error e) ∧
    (∀ (vl gl : Except String Table) (out : Table),
       runPipeline vl gl = .ok out → vl.isOk = true ∧ gl.isOk = true) := by
  refine ⟨fun e g => rfl, ?_, fun t e => rfl, ?_⟩
  · intro e
    have hdata : lowerList (vladFatalMessage e) =
        lowerList "FATAL ERROR: Failed to load and clean Vladimir file. Error: " ++ lowerList e := by
      simp [lowerList, vladFatalMessage, String.data_append]
    rw [hdata]
    exact occursIn_append_left _ _ _ (by decide)
  · intro vl gl out h
    cases vl with
    | error e => simp [runPipeline] at h
    | ok v =>
      cases gl with
      | error e => simp [runPipeline] at h
      | ok g => exact ⟨rfl, rfl⟩

/-- C9 witness: a fully successful run, discharging the hypothesis of the
only-both-loads-succeed conjunct. -/
theorem C9_error_policy_amended_witness :
    (Except.ok (⟨[], []⟩ : Table) : Except String Table).isOk = true ∧
    (Except.ok (⟨[], []⟩ : Table) : Except String Table).isOk = true :=
  C9_error_policy_amended.2.2.2 (.ok ⟨[], []⟩) (.ok ⟨[], []⟩)
    (process ⟨[], []⟩ ⟨[], []⟩) rfl

/-- C10: after cleaning, and only for the Vladimir source, the first
column whose lowercased label contains both `depth` and `cm` is renamed to
`Depth`, and the column labelled exactly `Sample` is dropped, before
schema mapping; the global source's labels are left untouched. -/
theorem C10_vladimir_postprocessing :
    (∀ (labels : List String) (d : String),
       depthColumn labels = some d →
         hasDepthCm d = true ∧
           ∃ pre post, labels = pre ++ d :: post ∧ ∀ x, x ∈ pre → hasDepthCm x = false) ∧
    (∀ labels : List String, ¬ "Sample" ∈ vladPostLabel labels) ∧
    (∀ labels : List String, globalLabels labels = labels) ∧
    vladPostLabel ["Depth of soil sampling, cm", "Sample", "As"] = ["Depth", "As"] := by
  refine ⟨?_, ?_, fun _ => rfl, by decide⟩
  · intro labels d h
    exact find?_first hasDepthCm labels d h
  · intro labels h
    simp only [vladPostLabel, dropSampleColumn] at h
    have h2 := (List.mem_filter.mp h).2
    simp at h2

/-- C10 witness: the depth-column characterization at the concrete
Vladimir depth label. -/
theorem C10_vladimir_postprocessing_witness :
    hasDepthCm "Depth of soil sampling, cm" = true :=
  (C10_vladimir_postprocessing.1 ["Depth of soil sampling, cm"]
    "Depth of soil sampling, cm" (by decide)).1

end CombineSoilMetals
